import Mathlib

/- Verification model of the statistics / binning / formatting core of the
   TB-Fast-Analysis repository (src/plotting.py, src/fast_testbeam_analysis.py).

   Numeric values are modelled as exact rationals.  CPython formats a float by
   correctly rounding the exact binary value of the IEEE double with ties to
   even; feeding this model the exact integer ratio of a double therefore
   reproduces CPython's output of the `g` and `f` format codes exactly. -/

namespace TBFast

attribute [local semireducible] Rat.mul Rat.inv Rat.add Rat.sub Rat.ofScientific

/-- Character for a decimal digit `d < 10`. -/
def digitChar (d : ℕ) : Char := Char.ofNat (48 + d)

/-- Render a most-significant-first digit list as a string. -/
def digitsToStr (ds : List ℕ) : String := String.mk (ds.map digitChar)

/-- Drop trailing zeros of a most-significant-first digit list. -/
def stripZeros (ds : List ℕ) : List ℕ := (ds.reverse.dropWhile (fun d => d == 0)).reverse

/-- Decimal digits of `n`, least significant first, with structural fuel
(the fuel `n` itself is always enough since `n / 10 < n` for `n > 0`). -/
def natDigitsAux : ℕ → ℕ → List ℕ
  | 0, _ => []
  | _ + 1, 0 => []
  | fuel + 1, n => n % 10 :: natDigitsAux fuel (n / 10)

/-- Decimal digits of `n`, most significant first (empty for 0). -/
def natDigitsMSD (n : ℕ) : List ℕ := (natDigitsAux n n).reverse

/-- Number of decimal digits of `n` (0 for 0). -/
def numDigits (n : ℕ) : ℕ := (natDigitsAux n n).length

/-- Exponent field of CPython scientific notation: at least two digits. -/
def padExp (e : ℕ) : String := if e < 10 then "0" ++ Nat.repr e else Nat.repr e

/-- Round to the nearest integer, ties to even — the rounding CPython's float
formatting performs on the exact value of the double. -/
def roundHalfEven (x : ℚ) : ℤ :=
  let f := ⌊x⌋
  let r := x - (f : ℚ)
  if r < 1/2 then f
  else if 1/2 < r then f + 1
  else if f % 2 = 0 then f else f + 1

/-- For `x > 0`, the unique `e` with `10 ^ e ≤ x < 10 ^ (e + 1)`.  Computed from
the decimal digit counts of numerator and denominator: with `la` digits in the
numerator and `lb` in the denominator, `x` lies in
`(10 ^ (la - lb - 1), 10 ^ (la - lb + 1))`, so the answer is `la - lb` or
`la - lb - 1`, settled by one comparison.  Junk on `x ≤ 0`. -/
def floorLog10 (x : ℚ) : ℤ :=
  let la : ℤ := numDigits x.num.natAbs
  let lb : ℤ := numDigits x.den
  let e0 : ℤ := la - lb
  if x < (10 : ℚ) ^ e0 then e0 - 1 else e0

/-- For `x > 0` and `p ≥ 1`: round `x` to `p` significant decimal digits,
returning the digit block `m` (with `10 ^ (p-1) ≤ m < 10 ^ p`) and the decimal
exponent `E` of the leading digit, handling the round-up-overflow case
(e.g. 999.7 → (100, 3) at p = 3). -/
def sigRound (p : ℕ) (x : ℚ) : ℕ × ℤ :=
  let E0 := floorLog10 x
  let m0 := roundHalfEven (x / (10 : ℚ) ^ (E0 - p + 1))
  if m0 = 10 ^ p then (10 ^ (p - 1), E0 + 1) else (m0.toNat, E0)

/-- Model of CPython `format(x, '.pg')` on the exact value `x`: round to `p`
significant digits; use fixed notation when the decimal exponent `E` satisfies
`-4 ≤ E < p` and scientific notation otherwise; strip trailing fractional
zeros (and a bare trailing point). -/
def fmtG (p : ℕ) (x : ℚ) : String :=
  if x = 0 then "0"
  else
    let sign := if x < 0 then "-" else ""
    let q := max p 1
    let me := sigRound q |x|
    let m := me.1
    let E := me.2
    let ds := natDigitsMSD m
    if -4 ≤ E ∧ E < (q : ℤ) then
      if E < 0 then
        sign ++ "0." ++ String.mk (List.replicate ((-E).toNat - 1) (digitChar 0))
          ++ digitsToStr (stripZeros ds)
      else
        let k := E.toNat + 1
        let fracPart := stripZeros (ds.drop k)
        sign ++ digitsToStr (ds.take k)
          ++ (if fracPart.isEmpty then "" else "." ++ digitsToStr fracPart)
    else
      let rest := stripZeros ds.tail
      sign ++ digitsToStr [ds.headD 0]
        ++ (if rest.isEmpty then "" else "." ++ digitsToStr rest)
        ++ "e" ++ (if E < 0 then "-" else "+") ++ padExp E.natAbs

/-- Model of CPython `format(x, '.df')` on the exact value `x`: fixed-point
with exactly `d` digits after the point (none and no point when `d = 0`),
rounding ties to even. -/
def fmtF (d : ℕ) (x : ℚ) : String :=
  let sign := if x < 0 then "-" else ""
  let n := (roundHalfEven (|x| * (10 : ℚ) ^ d)).toNat
  if d = 0 then sign ++ Nat.repr n
  else
    let fr := Nat.repr (n % 10 ^ d)
    sign ++ Nat.repr (n / 10 ^ d) ++ "."
      ++ String.mk (List.replicate (d - fr.length) (digitChar 0)) ++ fr

/-- Model of Python `c in s` for a single character. -/
def strContains (s : String) (c : Char) : Bool := s.data.contains c

/-- Model of Python `s.split(".")[-1]`: the suffix after the last dot, the
whole string when no dot occurs. -/
def afterLastDot (s : String) : List Char :=
  (s.data.reverse.takeWhile (fun ch => ch != '.')).reverse

/-- plotting.py lines 283-294, `format_latex`: 3-significant-figure rendering;
if that rendering is exponential, re-express as `mantissa × 10 ^ exponent` with
`sig_digits - 1` fixed decimals, the exponent being `floor(log10 |x|)` of the
original value. -/
def format_latex (num_val : ℚ) (sig_digits : ℕ) : String :=
  let sig := if sig_digits = 0 then 3 else sig_digits
  let num_str := fmtG 3 num_val
  if strContains num_str ('e') then
    let exponent := floorLog10 |num_val|
    let mantissa := num_val / (10 : ℚ) ^ exponent
    fmtF (sig - 1) mantissa ++ "×10$^\x7b" ++ toString exponent ++ "\x7d$"
  else num_str

/-- plotting.py lines 297-323, `set_significant_digits_str`: match the value's
displayed precision to the uncertainty's 3-significant-figure rendering. -/
def set_significant_digits_str (value uncertainty : ℚ) : String × String :=
  if uncertainty = 0 then (format_latex value 3, "0")
  else
    let uncertainty_str := fmtG 3 uncertainty
    if strContains uncertainty_str ('e') then
      (format_latex value 3, format_latex uncertainty 3)
    else
      let uncertainty_prec :=
        if strContains uncertainty_str ('.') then
          (afterLastDot uncertainty_str).length
        else 0
      let uncertainty_dec := if uncertainty_prec > 0 then uncertainty_prec else 0
      let uncertainty_dig := if uncertainty_prec > 0 then 0 else uncertainty_str.length
      if uncertainty_dec = 0 then
        if uncertainty_dig > 0 then (fmtG uncertainty_dig value, uncertainty_str)
        else (fmtG 3 value, uncertainty_str)
      else (fmtF uncertainty_dec value, uncertainty_str)

/-- Model of `np.arange(start, stop, step)` for positive `step` in exact
arithmetic: `⌈(stop - start) / step⌉` values `start + i * step` (numpy's
documented length formula); empty for a nonpositive step (unused here). -/
def np_arange (start stop step : ℚ) : List ℚ :=
  if 0 < step then
    (List.range ⌈(stop - start) / step⌉.toNat).map (fun i : ℕ => start + (i : ℚ) * step)
  else []

/-- plotting.py line 326-327, `get_equal_bins`. -/
def get_equal_bins (min_val max_val step : ℚ) : List ℚ :=
  np_arange min_val (max_val + step) step

/-- Model of `np.min` on a nonempty list (junk 0 on the empty list, which the
code guards against). -/
def listMin : List ℚ → ℚ
  | [] => 0
  | x :: xs => xs.foldl min x

/-- Model of `np.max` on a nonempty list (junk 0 on the empty list). -/
def listMax : List ℚ → ℚ
  | [] => 0
  | x :: xs => xs.foldl max x

/-- plotting.py lines 48-49: the fixed-step bin edges,
`get_equal_bins(min(np.min(data), 0), np.max(data), step)`. -/
def edgesFixedStep (data : List ℚ) (w : ℚ) : List ℚ :=
  get_equal_bins (min (listMin data) 0) (listMax data) w

/-- Python truthiness of the optional integer `bin_num` argument:
`None` and `0` are falsy. -/
def truthyInt : Option ℤ → Bool
  | none => false
  | some n => n != 0

/-- Python truthiness of the optional numeric `bin_step` argument:
`None` and `0` are falsy. -/
def truthyRat : Option ℚ → Bool
  | none => false
  | some w => w != 0

/-- The `bins` value handed to `ax.hist`: the library default string
`'auto'`, an explicit bin count, or an explicit edge list. -/
inductive BinsChoice where
  | auto : BinsChoice
  | num : ℤ → BinsChoice
  | edges : List ℚ → BinsChoice
deriving DecidableEq

/-- plotting.py lines 44-49: `bins = 'auto'`, overridden by a truthy
`bin_num`, else by a truthy `bin_step` via `get_equal_bins`. -/
def selectBins (data : List ℚ) (bin_num : Option ℤ) (bin_step : Option ℚ) : BinsChoice :=
  if truthyInt bin_num then .num (bin_num.getD 0)
  else if truthyRat bin_step then .edges (edgesFixedStep data (bin_step.getD 0))
  else .auto

/-- Outcome of `plot_1d_hist`: either the early return with a warning
(matplotlib is never touched), or a produced chart carrying the bins choice,
the histogrammed sample, the entry count and the mean shown in the legend.
The standard deviation shown alongside is `sqrt` of the sample variance,
irrational in general; it is a function of the recorded sample and is not
needed by any claim, so it is not duplicated here. -/
inductive Plot1DResult where
  | skipped : String → Plot1DResult
  | chart : BinsChoice → List ℚ → ℕ → ℚ → Plot1DResult
deriving DecidableEq

/-- plotting.py lines 13-65, `plot_1d_hist`, as a function from the data and
the two binning parameters to the produced artifact.  `none` models passing
`None`; lines 30-33 guard empty or null data with a warning and `return`. -/
def plot_1d_hist (data : Option (List ℚ)) (bin_num : Option ℤ) (bin_step : Option ℚ) :
    Plot1DResult :=
  match data with
  | none => .skipped "Cannot plot empty data."
  | some d =>
    if d.length = 0 then .skipped "Cannot plot empty data."
    else .chart (selectBins d bin_num bin_step) d d.length (d.sum / (d.length : ℚ))

/-- One row of the tabular dataset (spec.md §3, HitRecord). -/
structure HitRecord where
  event_id : ℤ
  layer_id : ℤ
  channel_id : ℤ
  amplitude : ℚ
  shower_energy : ℚ
deriving DecidableEq

/-- Modelled from the spec: `filter_df` (module `df_handling`, imported by
plotting.py but not under src/) restricted to the `planes=...` keyword used
here — "select all hit rows with that `layer_id`" (spec.md §4.4). -/
def filter_df (df : List HitRecord) (plane : ℤ) : List HitRecord :=
  df.filter (fun r => r.layer_id == plane)

/-- First-occurrence deduplication with an accumulator of already-seen
elements; structural recursion. -/
def uniqueFirstAux [DecidableEq α] (seen : List α) : List α → List α
  | [] => []
  | x :: xs => if x ∈ seen then uniqueFirstAux seen xs else x :: uniqueFirstAux (x :: seen) xs

/-- Modelled from the spec: `unique_df` (module `df_handling`, not under
src/) — "deduplicate to one row per ..." (spec.md §4.4); pandas
`drop_duplicates` keeps the first occurrence of each distinct row, in order. -/
def unique_df [DecidableEq α] (l : List α) : List α := uniqueFirstAux [] l

/-- Modelled from the spec: `calc_freq` (module `tb_helpers_v2025`, not under
src/) — "tally hits per channel position into the 13×20 grid" (spec.md §4.4).
The grid is indexed here by channel id; the 13×20 spatial arrangement is a
relabeling of cells that does not affect any cell's value. -/
def calc_freq (hits : List ℤ) : ℤ → ℕ := fun c => hits.count c

/-- plotting.py line 212: `len(np.unique(df[EVENT_ID_COL]))`, the number of
distinct event ids in the full dataset. -/
def num_events (df : List HitRecord) : ℕ := ((df.map (fun r => r.event_id)).dedup).length

/-- plotting.py lines 225-229 (the per-layer body of `plot_channel_frequency`):
filter to the layer, deduplicate `(event_id, channel_id)` pairs, tally the
channel column, divide by the full dataset's distinct event count. -/
def channel_frequency (df : List HitRecord) (layer : ℤ) : ℤ → ℚ :=
  let channel_data := filter_df df layer
  let deduped := unique_df (channel_data.map (fun r => (r.event_id, r.channel_id)))
  let channel_hits := deduped.map (fun p => p.2)
  fun c => (calc_freq channel_hits c : ℚ) / (num_events df : ℚ)

/-- plotting.py lines 119-120: the sample handed to the shower-energy
histogram — deduplicate the `(event_id, shower_energy)` projection, then take
the energy column. -/
def shower_energies (df : List HitRecord) : List ℚ :=
  (unique_df (df.map (fun r => (r.event_id, r.shower_energy)))).map (fun p => p.2)

/-- plotting.py lines 118-124, `plot_shower_energy_dist`: histogram the
deduplicated shower energies with `bin_step=100`. -/
def plot_shower_energy_dist (df : List HitRecord) : Plot1DResult :=
  plot_1d_hist (some (shower_energies df)) none (some 100)

/-- A 13×20 heatmap grid of reals. -/
def Grid := Fin 13 → Fin 20 → ℚ

/-- The elementwise effect of `data[data == 0] = -1` (plotting.py line 190). -/
def adjust_grid (g : Grid) : Grid :=
  fun i j => if g i j = 0 then -1 else g i j

/-- A color map: its base gradient name and its optional under-range color
(`set_under`). -/
structure Cmap where
  base : String
  under : Option String
deriving DecidableEq

/-- The optional color-scale object: `colors.LogNorm()` or `None`. -/
inductive ColorNorm where
  | logNorm : ColorNorm
deriving DecidableEq

/-- Identity of a numpy array object; mutation is modelled by a store from
identities to grid contents, so aliasing is observable. -/
def ArrayRef := ℕ

instance : DecidableEq ArrayRef := fun a b => instDecidableEqNat a b

/-- The mutable store mapping each array identity to its current contents. -/
def Store := ArrayRef → Grid

/-- plotting.py lines 189-194, `adjust_colors`: overwrite zero cells of the
argument array in place with −1, build a copy of the "jet" color map with
white as the under-range color, choose `LogNorm` iff `log`.  The function
returns the very array object it was given (`return data, ...`); the store
records the in-place write. -/
def adjust_colors (a : ArrayRef) (σ : Store) (log : Bool) :
    (ArrayRef × Cmap × Option ColorNorm) × Store :=
  ((a, { base := "jet", under := some "white" }, if log then some .logNorm else none),
    Function.update σ a (adjust_grid (σ a)))

/-- plotting.py lines 149-186, `plot_heatmap`, reduced to its data flow:
`freq, cmap, colorscale = adjust_colors(data, log=log)` followed by
`ax.imshow(data, cmap=cmap, norm=colorscale)` — note `imshow` is passed the
variable `data`, read from the store after the in-place mutation.  Returns
the rendered grid with the color settings, and the final store. -/
def plot_heatmap (a : ArrayRef) (σ : Store) (log : Bool) :
    (Grid × Cmap × Option ColorNorm) × Store :=
  let r := adjust_colors a σ log
  let σ1 := r.2
  ((σ1 a, r.1.2.1, r.1.2.2), σ1)

/-- The end-to-end example dataset of spec.md §8: event 1 has three hits in
layer 0 (amplitudes 10, 20, 30, shower energy 100) on channels 0, 1, 2;
event 2 has one hit in layer 0 (amplitude 5, shower energy 50) on channel 3. -/
def sampleDf : List HitRecord :=
  [⟨1, 0, 0, 10, 100⟩, ⟨1, 0, 1, 20, 100⟩, ⟨1, 0, 2, 30, 100⟩, ⟨2, 0, 3, 5, 50⟩]

/-- The properties claimed of the fixed-step bin edges: they are exactly
`np.arange(min(0, sample_min), sample_max + w, w)`; nonempty; consecutive
edges differ by exactly `w`; strictly increasing; the first edge is
`min(0, sample_min)` — hence 0 when every sample value is positive and ≤ 0
when some value is ≤ 0 — and the last edge is at least the sample max. -/
def FixedStepBinsSpec (data : List ℚ) (w : ℚ) : Prop :=
  edgesFixedStep data w = np_arange (min (listMin data) 0) (listMax data + w) w
  ∧ edgesFixedStep data w ≠ []
  ∧ (∀ i (h1 : i < (edgesFixedStep data w).length)
      (h2 : i + 1 < (edgesFixedStep data w).length),
      (edgesFixedStep data w).get ⟨i + 1, h2⟩ - (edgesFixedStep data w).get ⟨i, h1⟩ = w)
  ∧ (edgesFixedStep data w).Pairwise (· < ·)
  ∧ (edgesFixedStep data w).head? = some (min (listMin data) 0)
  ∧ (∀ h : edgesFixedStep data w ≠ [],
      listMax data ≤ (edgesFixedStep data w).getLast h)
  ∧ ((∀ x ∈ data, 0 < x) → (edgesFixedStep data w).head? = some 0)
  ∧ ((∃ x ∈ data, x ≤ 0) →
      ∃ e₀, (edgesFixedStep data w).head? = some e₀ ∧ e₀ ≤ 0)

/-- Validation of the `%g` model against CPython outputs (checked against
`format(x, '.3g')` on the doubles these rationals represent exactly). -/
theorem fmtG_validation :
    fmtG 3 (12/100) = "0.12"
    ∧ fmtG 3 456 = "456"
    ∧ fmtG 3 12345 = "1.23e+04"
    ∧ fmtG 3 1000 = "1e+03"
    ∧ fmtG 3 0 = "0"
    ∧ fmtG 3 (123/1000000) = "0.000123"
    ∧ fmtG 3 (123/10000000) = "1.23e-05"
    ∧ fmtG 3 (3/2) = "1.5"
    ∧ fmtG 3 5 = "5" := by
  refine ⟨?_, ?_, ?_, ?_, ?_, ?_, ?_, ?_, ?_⟩ <;> decide

/-- Validation of the `%f` model against CPython outputs, including the exact
IEEE double of 12.345 (which is slightly above 12.345, hence "12.35") and
ties-to-even at half-integers. -/
theorem fmtF_validation :
    fmtF 2 (6949617174986097/562949953421312) = "12.35"
    ∧ fmtF 0 (63/5) = "13"
    ∧ fmtF 0 (1/2) = "0"
    ∧ fmtF 0 (5/2) = "2" := by
  refine ⟨?_, ?_, ?_, ?_⟩ <;> decide

/-- Validation of the full formatter on the spec's two examples (floats taken
as the exact values of the IEEE doubles 12.345 and 0.12). -/
theorem set_significant_digits_str_validation :
    set_significant_digits_str (6949617174986097/562949953421312)
      (1080863910568919/9007199254740992) = ("12.35", "0.12")
    ∧ set_significant_digits_str 12345 456 = ("1.23e+04", "456") := by
  constructor <;> decide

lemma foldl_min_le_init (l : List ℚ) (a : ℚ) : l.foldl min a ≤ a := by
  induction l generalizing a with
  | nil => exact le_refl a
  | cons x xs ih => exact le_trans (ih (min a x)) (min_le_left a x)

lemma foldl_min_le_mem (l : List ℚ) (a x : ℚ) (hx : x ∈ l) : l.foldl min a ≤ x := by
  induction l generalizing a with
  | nil => cases hx
  | cons y ys ih =>
    rcases List.mem_cons.mp hx with h | h
    · subst h
      exact le_trans (foldl_min_le_init ys (min a x)) (min_le_right a x)
    · exact ih (min a y) h

lemma foldl_min_mem (l : List ℚ) (a : ℚ) : l.foldl min a = a ∨ l.foldl min a ∈ l := by
  induction l generalizing a with
  | nil => exact Or.inl rfl
  | cons y ys ih =>
    rcases ih (min a y) with h | h
    · rcases min_choice a y with hc | hc
      · exact Or.inl (by rw [List.foldl_cons, h, hc])
      · exact Or.inr (by rw [List.foldl_cons, h, hc]; exact List.mem_cons_self y ys)
    · exact Or.inr (List.mem_cons_of_mem y h)

lemma foldl_max_init_le (l : List ℚ) (a : ℚ) : a ≤ l.foldl max a := by
  induction l generalizing a with
  | nil => exact le_refl a
  | cons x xs ih => exact le_trans (le_max_left a x) (ih (max a x))

lemma foldl_max_mem_le (l : List ℚ) (a x : ℚ) (hx : x ∈ l) : x ≤ l.foldl max a := by
  induction l generalizing a with
  | nil => cases hx
  | cons y ys ih =>
    rcases List.mem_cons.mp hx with h | h
    · subst h
      exact le_trans (le_max_right a x) (foldl_max_init_le ys (max a x))
    · exact ih (max a y) h

lemma listMin_le (data : List ℚ) (x : ℚ) (hx : x ∈ data) : listMin data ≤ x := by
  cases data with
  | nil => cases hx
  | cons y ys =>
    rcases List.mem_cons.mp hx with h | h
    · subst h; exact foldl_min_le_init ys x
    · exact foldl_min_le_mem ys y x h

lemma listMin_mem (data : List ℚ) (h : data ≠ []) : listMin data ∈ data := by
  cases data with
  | nil => exact absurd rfl h
  | cons y ys =>
    rcases foldl_min_mem ys y with h1 | h1
    · rw [listMin, h1]; exact List.mem_cons_self y ys
    · exact List.mem_cons_of_mem y h1

lemma le_listMax (data : List ℚ) (x : ℚ) (hx : x ∈ data) : x ≤ listMax data := by
  cases data with
  | nil => cases hx
  | cons y ys =>
    rcases List.mem_cons.mp hx with h | h
    · subst h; exact foldl_max_init_le ys x
    · exact foldl_max_mem_le ys y x h

lemma listMin_le_listMax (data : List ℚ) (h : data ≠ []) :
    listMin data ≤ listMax data :=
  le_listMax data (listMin data) (listMin_mem data h)

lemma np_arange_eq (start stop step : ℚ) (h : 0 < step) :
    np_arange start stop step
      = (List.range ⌈(stop - start) / step⌉.toNat).map
          (fun i : ℕ => start + (i : ℚ) * step) := by
  rw [np_arange, if_pos h]

lemma np_arange_length (start stop step : ℚ) (h : 0 < step) :
    (np_arange start stop step).length = ⌈(stop - start) / step⌉.toNat := by
  rw [np_arange_eq _ _ _ h, List.length_map, List.length_range]

lemma np_arange_get (start stop step : ℚ) (h : 0 < step) (i : ℕ)
    (hi : i < (np_arange start stop step).length) :
    (np_arange start stop step).get ⟨i, hi⟩ = start + (i : ℚ) * step := by
  simp only [np_arange_eq _ _ _ h, List.get_eq_getElem, List.getElem_map,
    List.getElem_range]

lemma np_arange_head (start stop step : ℚ) (h : 0 < step)
    (hne : ⌈(stop - start) / step⌉.toNat ≠ 0) :
    (np_arange start stop step).head? = some start := by
  obtain ⟨k, hk⟩ := Nat.exists_eq_succ_of_ne_zero hne
  rw [np_arange_eq _ _ _ h, hk, List.range_succ_eq_map]
  simp

/-- C1: for every nonempty sample and step `w > 0`, the fixed-step bin edges
are `arange(min(0, sample_min), sample_max + w, w)`: strictly increasing,
consecutive edges exactly `w` apart, first edge `min(0, sample_min)` (0 when
all sample values are positive, ≤ 0 when some value is ≤ 0), last edge at
least the sample max. -/
theorem fixed_step_bins (data : List ℚ) (w : ℚ) (hd : data ≠ []) (hw : 0 < w) :
    FixedStepBinsSpec data w := by
  have hsm : min (listMin data) 0 ≤ listMax data :=
    le_trans (min_le_left _ _) (listMin_le_listMax data hd)
  have hstep1 : (1 : ℚ) ≤ (listMax data + w - min (listMin data) 0) / w :=
    (one_le_div hw).mpr (by linarith)
  have hc1 : (1 : ℤ) ≤ ⌈(listMax data + w - min (listMin data) 0) / w⌉ := by
    calc (1 : ℤ) = ⌈(1 : ℚ)⌉ := by rw [Int.ceil_one]
    _ ≤ _ := Int.ceil_mono hstep1
  have hcn : ((⌈(listMax data + w - min (listMin data) 0) / w⌉.toNat : ℤ))
      = ⌈(listMax data + w - min (listMin data) 0) / w⌉ :=
    Int.toNat_of_nonneg (le_trans zero_le_one hc1)
  have hn1 : 1 ≤ ⌈(listMax data + w - min (listMin data) 0) / w⌉.toNat := by omega
  have hlen : (edgesFixedStep data w).length
      = ⌈(listMax data + w - min (listMin data) 0) / w⌉.toNat := by
    unfold edgesFixedStep get_equal_bins
    rw [np_arange_length _ _ _ hw]
  have hgetfun : ∀ i (hi : i < (edgesFixedStep data w).length),
      (edgesFixedStep data w).get ⟨i, hi⟩ = min (listMin data) 0 + (i : ℚ) * w := by
    intro i hi
    unfold edgesFixedStep get_equal_bins at hi ⊢
    exact np_arange_get _ _ _ hw i hi
  have hne : edgesFixedStep data w ≠ [] := by
    rw [← List.length_pos, hlen]; omega
  have hhead : (edgesFixedStep data w).head? = some (min (listMin data) 0) := by
    unfold edgesFixedStep get_equal_bins
    exact np_arange_head _ _ _ hw (by omega)
  refine ⟨rfl, hne, ?_, ?_, hhead, ?_, ?_, ?_⟩
  · intro i h1 h2
    rw [hgetfun i h1, hgetfun (i + 1) h2]
    push_cast
    ring
  · unfold edgesFixedStep get_equal_bins
    rw [np_arange_eq _ _ _ hw]
    refine List.Pairwise.map _ ?_ (List.pairwise_lt_range _)
    intro a b hab
    have hq : (a : ℚ) < (b : ℚ) := by exact_mod_cast hab
    have := mul_lt_mul_of_pos_right hq hw
    simpa using this
  · intro h
    rw [List.getLast_eq_get]
    rw [hgetfun _ _]
    have hkey : (listMax data + w - min (listMin data) 0) / w
        ≤ ((⌈(listMax data + w - min (listMin data) 0) / w⌉.toNat : ℚ)) := by
      rw [show ((⌈(listMax data + w - min (listMin data) 0) / w⌉.toNat : ℚ))
          = (((⌈(listMax data + w - min (listMin data) 0) / w⌉.toNat : ℤ)) : ℚ) by push_cast; ring]
      rw [hcn]
      exact Int.le_ceil _
    have hkey2 : listMax data + w - min (listMin data) 0
        ≤ ((⌈(listMax data + w - min (listMin data) 0) / w⌉.toNat : ℚ)) * w :=
      (div_le_iff hw).mp hkey
    rw [hlen]
    rw [Nat.cast_sub hn1]
    push_cast
    linarith
  · intro hpos
    have h0 : 0 < listMin data := hpos _ (listMin_mem data hd)
    rw [hhead, min_eq_right (le_of_lt h0)]
  · intro _
    exact ⟨min (listMin data) 0, hhead, min_le_right _ _⟩

/-- Witness for C1 at the concrete sample `[1/2, 5/2]` with step 1. -/
theorem fixed_step_bins_witness :
    ([1/2, 5/2] : List ℚ) ≠ [] ∧ (0 : ℚ) < 1 ∧ FixedStepBinsSpec [1/2, 5/2] 1 :=
  ⟨by decide, by decide, fixed_step_bins [1/2, 5/2] 1 (by decide) (by decide)⟩

/-- C2 (amended): for every uncertainty `u ≠ 0` whose 3-significant-figure
rendering is not scientific and contains a decimal point followed by `d ≥ 1`
digits, the formatter returns that rendering as the uncertainty string and
formats the value fixed-point with exactly `d` digits after the point. -/
theorem decimal_uncertainty_matches (value uncertainty : ℚ)
    (h0 : uncertainty ≠ 0)
    (hE : strContains (fmtG 3 uncertainty) 'e' = false)
    (hD : strContains (fmtG 3 uncertainty) '.' = true)
    (hpos : 0 < (afterLastDot (fmtG 3 uncertainty)).length) :
    set_significant_digits_str value uncertainty =
      (fmtF (afterLastDot (fmtG 3 uncertainty)).length value, fmtG 3 uncertainty) := by
  have hL : ¬((afterLastDot (fmtG 3 uncertainty)).length = 0) :=
    Nat.pos_iff_ne_zero.mp hpos
  simp only [set_significant_digits_str, if_neg h0, hE, hD, Bool.false_eq_true,
    if_false, if_true, if_pos hpos, if_neg hL]

/-- Witness for C2 at the IEEE doubles of the spec's example
`value = 12.345`, `uncertainty = 0.12`. -/
theorem decimal_uncertainty_matches_witness :
    (1080863910568919/9007199254740992 : ℚ) ≠ 0
    ∧ strContains (fmtG 3 (1080863910568919/9007199254740992 : ℚ)) 'e' = false
    ∧ strContains (fmtG 3 (1080863910568919/9007199254740992 : ℚ)) '.' = true
    ∧ 0 < (afterLastDot (fmtG 3 (1080863910568919/9007199254740992 : ℚ))).length
    ∧ set_significant_digits_str (6949617174986097/562949953421312)
        (1080863910568919/9007199254740992) =
      (fmtF (afterLastDot (fmtG 3 (1080863910568919/9007199254740992 : ℚ))).length
        (6949617174986097/562949953421312),
        fmtG 3 (1080863910568919/9007199254740992 : ℚ)) :=
  ⟨by decide, by decide, by decide, by decide,
    decimal_uncertainty_matches _ _ (by decide) (by decide) (by decide) (by decide)⟩

/-- Counterexample for C2 as stated: on the claimed example
(`value = 12.345`, `uncertainty = 0.12` as IEEE doubles) the uncertainty
string is `"0.12"` — the `%g` rendering strips trailing zeros — and never
`"0.120"`. -/
theorem decimal_uncertainty_example_cex :
    (set_significant_digits_str (6949617174986097/562949953421312)
        (1080863910568919/9007199254740992)).2 = "0.12"
    ∧ (set_significant_digits_str (6949617174986097/562949953421312)
        (1080863910568919/9007199254740992)).2 ≠ "0.120" := by
  constructor
  · decide
  · decide

/-- C3 (amended): for every uncertainty `u ≠ 0` whose 3-significant-figure
rendering has neither an `e` nor a decimal point, the formatter formats the
value with `%g` to as many significant figures as that rendering has digits
(not to decimal places). -/
theorem integer_uncertainty_sigfigs (value uncertainty : ℚ)
    (h0 : uncertainty ≠ 0)
    (hE : strContains (fmtG 3 uncertainty) 'e' = false)
    (hD : strContains (fmtG 3 uncertainty) '.' = false)
    (hlen : 0 < (fmtG 3 uncertainty).length) :
    set_significant_digits_str value uncertainty =
      (fmtG (fmtG 3 uncertainty).length value, fmtG 3 uncertainty) := by
  simp only [set_significant_digits_str, if_neg h0, hE, hD, Bool.false_eq_true,
    if_false, lt_irrefl, if_pos hlen, if_true]

/-- Witness for C3 at the spec's example `value = 12345`,
`uncertainty = 456`. -/
theorem integer_uncertainty_sigfigs_witness :
    (456 : ℚ) ≠ 0
    ∧ strContains (fmtG 3 (456 : ℚ)) 'e' = false
    ∧ strContains (fmtG 3 (456 : ℚ)) '.' = false
    ∧ 0 < (fmtG 3 (456 : ℚ)).length
    ∧ set_significant_digits_str 12345 456 =
      (fmtG (fmtG 3 (456 : ℚ)).length 12345, fmtG 3 (456 : ℚ)) :=
  ⟨by decide, by decide, by decide, by decide,
    integer_uncertainty_sigfigs 12345 456 (by decide) (by decide) (by decide) (by decide)⟩

/-- Counterexample for C3 as stated: at `value = 12345`, `uncertainty = 456`
the value string is the exponential rendering `"1.23e+04"`, not the plain
3-significant-figure form `"12300"` the claim asserts. -/
theorem integer_uncertainty_example_cex :
    set_significant_digits_str 12345 456 = ("1.23e+04", "456")
    ∧ (set_significant_digits_str 12345 456).1 ≠ "12300"
    ∧ strContains (set_significant_digits_str 12345 456).1 'e' = true := by
  refine ⟨by decide, by decide, by decide⟩

/-- C4: for every value, calling the formatter with uncertainty exactly 0
takes the distinct first branch and returns `(format_latex(value), "0")`;
no division and no logarithm is performed on that path. -/
theorem uncertainty_zero_branch (value : ℚ) :
    set_significant_digits_str value 0 = (format_latex value 3, "0") := by
  simp [set_significant_digits_str]

/-- C5: for every empty or null sample, `plot_1d_hist` warns and returns
without producing a chart; the result is the total function's `skipped`
value carrying the warning text, so no exception interrupts a batch. -/
theorem empty_data_skips (data : Option (List ℚ)) (bn : Option ℤ) (bs : Option ℚ)
    (h : data = none ∨ data = some []) :
    plot_1d_hist data bn bs = .skipped "Cannot plot empty data." := by
  rcases h with h | h <;> subst h <;> simp [plot_1d_hist]

/-- Witness for C5 at a concrete null input. -/
theorem empty_data_skips_witness :
    ((none : Option (List ℚ)) = none ∨ (none : Option (List ℚ)) = some [])
    ∧ plot_1d_hist none (some 5) (some 1) = .skipped "Cannot plot empty data." :=
  ⟨Or.inl rfl, empty_data_skips none (some 5) (some 1) (Or.inl rfl)⟩

/-- C8: `adjust_colors` replaces every exact-zero cell of the grid with the
sentinel −1, leaves every nonzero cell unchanged, and assigns white as the
color map's under-range color, so zero cells render as "no data". -/
theorem zero_cells_sentinel (σ : Store) (a : ArrayRef) (log : Bool)
    (i : Fin 13) (j : Fin 20) :
    ((adjust_colors a σ log).2 a) i j = (if σ a i j = 0 then -1 else σ a i j)
    ∧ (adjust_colors a σ log).1.2.1.under = some "white" := by
  constructor
  · show (Function.update σ a (adjust_grid (σ a)) a) i j = _
    rw [Function.update_same]
    rfl
  · rfl

/-- C9: `adjust_colors` mutates its argument array in place — the returned
array is the same object (`(…).1.1 = a`), the store afterwards holds the
adjusted grid at that same identity and is untouched elsewhere — and
`plot_heatmap` passes that same mutated object to rendering. -/
theorem adjust_colors_in_place (σ : Store) (a : ArrayRef) (log : Bool) :
    (adjust_colors a σ log).1.1 = a
    ∧ (adjust_colors a σ log).2 = Function.update σ a (adjust_grid (σ a))
    ∧ (plot_heatmap a σ log).2 = Function.update σ a (adjust_grid (σ a))
    ∧ (plot_heatmap a σ log).1.1 = (plot_heatmap a σ log).2 a
    ∧ (plot_heatmap a σ log).1.1 = adjust_grid (σ a) := by
  refine ⟨rfl, rfl, rfl, rfl, ?_⟩
  show (Function.update σ a (adjust_grid (σ a)) a) = adjust_grid (σ a)
  rw [Function.update_same]

/-- C10: `bin_num = 0` is falsy and so is treated exactly like `bin_num`
unspecified — falling through to the `bin_step` policy, or to automatic
binning when that is falsy too; likewise `bin_step = 0` is treated as
unspecified.  No rejection happens: the policy is silently converted. -/
theorem zero_bin_args_falsy (data : List ℚ) (bn : Option ℤ) (bs : Option ℚ)
    (od : Option (List ℚ)) :
    selectBins data (some 0) bs = selectBins data none bs
    ∧ selectBins data bn (some 0) = selectBins data bn none
    ∧ selectBins data (some 0) none = .auto
    ∧ selectBins data (some 0) (some 0) = .auto
    ∧ plot_1d_hist od (some 0) bs = plot_1d_hist od none bs
    ∧ plot_1d_hist od bn (some 0) = plot_1d_hist od bn none := by
  have h1 : ∀ d : List ℚ, ∀ b : Option ℚ, selectBins d (some 0) b = selectBins d none b := by
    intro d b
    simp [selectBins, truthyInt]
  have h2 : ∀ d : List ℚ, ∀ b : Option ℤ, selectBins d b (some 0) = selectBins d b none := by
    intro d b
    cases b with
    | none => simp [selectBins, truthyRat]
    | some n => by_cases hn : n = 0 <;> simp [selectBins, truthyInt, truthyRat, hn]
  refine ⟨h1 data bs, h2 data bn, ?_, ?_, ?_, ?_⟩
  · rw [h1]; simp [selectBins, truthyRat, truthyInt]
  · rw [h1, h2]; simp [selectBins, truthyRat, truthyInt]
  · cases od with
    | none => rfl
    | some d => simp [plot_1d_hist, h1]
  · cases od with
    | none => rfl
    | some d => simp [plot_1d_hist, h2]

lemma mem_uniqueFirstAux {α : Type} [DecidableEq α] (l : List α) :
    ∀ (seen : List α) (a : α),
      a ∈ uniqueFirstAux seen l ↔ a ∈ l ∧ a ∉ seen := by
  induction l with
  | nil => intro seen a; simp [uniqueFirstAux]
  | cons x xs ih =>
    intro seen a
    by_cases hx : x ∈ seen
    · rw [uniqueFirstAux, if_pos hx, ih]
      constructor
      · rintro ⟨h1, h2⟩; exact ⟨List.mem_cons_of_mem x h1, h2⟩
      · rintro ⟨h1, h2⟩
        rcases List.mem_cons.mp h1 with rfl | h1
        · exact absurd hx h2
        · exact ⟨h1, h2⟩
    · rw [uniqueFirstAux, if_neg hx]
      constructor
      · intro h
        rcases List.mem_cons.mp h with rfl | h
        · exact ⟨List.mem_cons_self a xs, hx⟩
        · obtain ⟨h1, h2⟩ := (ih _ _).mp h
          refine ⟨List.mem_cons_of_mem x h1, fun hs => h2 (List.mem_cons_of_mem x hs)⟩
      · rintro ⟨h1, h2⟩
        rcases List.mem_cons.mp h1 with rfl | h1
        · exact List.mem_cons_self a _
        · by_cases hax : a = x
          · subst hax; exact List.mem_cons_self a _
          · refine List.mem_cons_of_mem x ((ih _ _).mpr ⟨h1, ?_⟩)
            intro hs
            rcases List.mem_cons.mp hs with h | h
            · exact hax h
            · exact h2 h

lemma nodup_uniqueFirstAux {α : Type} [DecidableEq α] (l : List α) :
    ∀ seen : List α, (uniqueFirstAux seen l).Nodup := by
  induction l with
  | nil => intro seen; simp [uniqueFirstAux]
  | cons x xs ih =>
    intro seen
    by_cases hx : x ∈ seen
    · rw [uniqueFirstAux, if_pos hx]; exact ih seen
    · rw [uniqueFirstAux, if_neg hx]
      refine List.nodup_cons.mpr ⟨?_, ih (x :: seen)⟩
      intro hmem
      exact ((mem_uniqueFirstAux xs _ x).mp hmem).2 (List.mem_cons_self x seen)

lemma map_uniqueFirstAux {α β : Type} [DecidableEq α] [DecidableEq β]
    (f : α → β) (l : List α) :
    ∀ seen : List α,
      (∀ x, x ∈ seen ++ l → ∀ y, y ∈ seen ++ l → f x = f y → x = y) →
      (uniqueFirstAux seen l).map f = uniqueFirstAux (seen.map f) (l.map f) := by
  induction l with
  | nil => intro seen _; simp [uniqueFirstAux]
  | cons x xs ih =>
    intro seen hinj
    have hsub : ∀ z, z ∈ seen ++ xs → z ∈ seen ++ x :: xs := by
      intro z hz
      rcases List.mem_append.mp hz with h | h
      · exact List.mem_append.mpr (Or.inl h)
      · exact List.mem_append.mpr (Or.inr (List.mem_cons_of_mem x h))
    have hx_iff : x ∈ seen ↔ f x ∈ seen.map f := by
      constructor
      · intro h; exact List.mem_map_of_mem f h
      · intro h
        obtain ⟨y, hy, hfy⟩ := List.mem_map.mp h
        have := hinj y (List.mem_append.mpr (Or.inl hy)) x
          (List.mem_append.mpr (Or.inr (List.mem_cons_self x xs))) hfy
        rwa [← this]
    by_cases hx : x ∈ seen
    · rw [List.map_cons, uniqueFirstAux, if_pos hx, uniqueFirstAux,
        if_pos (hx_iff.mp hx)]
      exact ih seen (fun a ha b hb => hinj a (hsub a ha) b (hsub b hb))
    · have hfx : f x ∉ seen.map f := fun h => hx (hx_iff.mpr h)
      rw [List.map_cons, uniqueFirstAux, if_neg hx, uniqueFirstAux, if_neg hfx,
        List.map_cons]
      have hstep : (x :: seen).map f = f x :: seen.map f := rfl
      rw [← hstep]
      have hsub2 : ∀ z, z ∈ (x :: seen) ++ xs → z ∈ seen ++ x :: xs := by
        intro z hz
        rcases List.mem_cons.mp hz with rfl | hz
        · exact List.mem_append.mpr (Or.inr (List.mem_cons_self z xs))
        · exact hsub z hz
      rw [ih (x :: seen) (fun a ha b hb => hinj a (hsub2 a ha) b (hsub2 b hb))]

lemma mem_unique_df {α : Type} [DecidableEq α] (l : List α) (a : α) :
    a ∈ unique_df l ↔ a ∈ l := by
  rw [unique_df, mem_uniqueFirstAux]
  simp

lemma nodup_unique_df {α : Type} [DecidableEq α] (l : List α) :
    (unique_df l).Nodup := nodup_uniqueFirstAux l []

lemma map_unique_df {α β : Type} [DecidableEq α] [DecidableEq β]
    (f : α → β) (l : List α)
    (hinj : ∀ x ∈ l, ∀ y ∈ l, f x = f y → x = y) :
    (unique_df l).map f = unique_df (l.map f) := by
  rw [unique_df, unique_df, map_uniqueFirstAux f l [] (by simpa using hinj)]
  rfl

lemma toFinset_unique_df {α : Type} [DecidableEq α] (l : List α) :
    (unique_df l).toFinset = l.toFinset := by
  ext a
  simp [List.mem_toFinset, mem_unique_df]

lemma length_unique_df {α : Type} [DecidableEq α] (l : List α) :
    (unique_df l).length = l.dedup.length := by
  rw [← List.card_toFinset l, ← toFinset_unique_df]
  exact (List.toFinset_card_of_nodup (nodup_unique_df l)).symm

lemma count_dedup_channel_le (df : List HitRecord) (layer c : ℤ) :
    ((unique_df ((filter_df df layer).map (fun r => (r.event_id, r.channel_id)))).map
      (fun p => p.2)).count c ≤ num_events df := by
  have h1 : ((unique_df ((filter_df df layer).map
        (fun r => (r.event_id, r.channel_id)))).map (fun p => p.2)).count c
      = ((unique_df ((filter_df df layer).map
        (fun r => (r.event_id, r.channel_id)))).filter (fun p => p.2 == c)).length := by
    rw [List.count, List.countP_map, List.countP_eq_length_filter]
    rfl
  rw [h1]
  have hFnd : ((unique_df ((filter_df df layer).map
      (fun r => (r.event_id, r.channel_id)))).filter (fun p => p.2 == c)).Nodup :=
    (nodup_unique_df _).filter _
  have hmapnd : (((unique_df ((filter_df df layer).map
      (fun r => (r.event_id, r.channel_id)))).filter (fun p => p.2 == c)).map
      (fun p => p.1)).Nodup := by
    refine List.Nodup.map_on ?_ hFnd
    intro x hx y hy hxy
    have hx2 := (List.mem_filter.mp hx).2
    have hy2 := (List.mem_filter.mp hy).2
    exact Prod.ext hxy (by rw [eq_of_beq hx2, eq_of_beq hy2])
  have hsubset : ∀ e, e ∈ (((unique_df ((filter_df df layer).map
      (fun r => (r.event_id, r.channel_id)))).filter (fun p => p.2 == c)).map
      (fun p => p.1)) → e ∈ df.map (fun r => r.event_id) := by
    intro e he
    obtain ⟨p, hpF, rfl⟩ := List.mem_map.mp he
    have hpL := List.mem_of_mem_filter hpF
    have hppairs := (mem_unique_df _ _).mp hpL
    obtain ⟨r, hr, rfl⟩ := List.mem_map.mp hppairs
    have hrdf : r ∈ df := (List.mem_filter.mp hr).1
    exact List.mem_map.mpr ⟨r, hrdf, rfl⟩
  calc ((unique_df ((filter_df df layer).map
        (fun r => (r.event_id, r.channel_id)))).filter (fun p => p.2 == c)).length
      = (((unique_df ((filter_df df layer).map
        (fun r => (r.event_id, r.channel_id)))).filter (fun p => p.2 == c)).map
        (fun p => p.1)).length := (List.length_map _ _).symm
    _ = (((unique_df ((filter_df df layer).map
        (fun r => (r.event_id, r.channel_id)))).filter (fun p => p.2 == c)).map
        (fun p => p.1)).toFinset.card :=
      (List.toFinset_card_of_nodup hmapnd).symm
    _ ≤ (df.map (fun r => r.event_id)).toFinset.card := by
      refine Finset.card_le_card ?_
      intro e he
      rw [List.mem_toFinset] at he ⊢
      exact hsubset e he
    _ = (df.map (fun r => r.event_id)).dedup.length := List.card_toFinset _
    _ = num_events df := rfl

/-- C6: the per-layer channel-frequency grid — dedup the layer's rows to one
per (event, channel), tally per channel, divide by the full dataset's
distinct event count — has every cell in [0, 1] whenever the dataset has at
least one event. -/
theorem channel_frequency_bounds (df : List HitRecord) (layer c : ℤ)
    (hN : 0 < num_events df) :
    0 ≤ channel_frequency df layer c ∧ channel_frequency df layer c ≤ 1 := by
  have hval : channel_frequency df layer c
      = ((((unique_df ((filter_df df layer).map
          (fun r => (r.event_id, r.channel_id)))).map (fun p => p.2)).count c : ℕ) : ℚ)
        / ((num_events df : ℕ) : ℚ) := rfl
  rw [hval]
  constructor
  · exact div_nonneg (Nat.cast_nonneg _) (Nat.cast_nonneg _)
  · rw [div_le_one (by exact_mod_cast hN)]
    exact_mod_cast count_dedup_channel_le df layer c

/-- Witness for C6 at the spec's 2-event example dataset: the bound holds and
channel 0 of layer 0, touched only by event 1, has frequency 1/2. -/
theorem channel_frequency_bounds_witness :
    0 < num_events sampleDf
    ∧ (0 ≤ channel_frequency sampleDf 0 0 ∧ channel_frequency sampleDf 0 0 ≤ 1)
    ∧ channel_frequency sampleDf 0 0 = 1/2 :=
  ⟨by decide, channel_frequency_bounds sampleDf 0 0 (by decide), by decide⟩

/-- C7: under the invariant that `shower_energy` is constant within an
`event_id`, the deduplicated `(event_id, shower_energy)` projection has
exactly one row per distinct event id — in first-appearance order — and every
row comes from the dataset, so the histogrammed sample has exactly one energy
value per distinct event regardless of hit multiplicity. -/
theorem shower_energy_dedup (df : List HitRecord)
    (hinv : ∀ r ∈ df, ∀ s ∈ df,
      r.event_id = s.event_id → r.shower_energy = s.shower_energy) :
    (shower_energies df).length = num_events df
    ∧ (unique_df (df.map (fun r => (r.event_id, r.shower_energy)))).map (fun p => p.1)
        = unique_df (df.map (fun r => r.event_id))
    ∧ ∀ p ∈ unique_df (df.map (fun r => (r.event_id, r.shower_energy))),
        ∃ r, r ∈ df ∧ p = (r.event_id, r.shower_energy) := by
  have hinj : ∀ x ∈ df.map (fun r => (r.event_id, r.shower_energy)),
      ∀ y ∈ df.map (fun r => (r.event_id, r.shower_energy)),
      (fun p : ℤ × ℚ => p.1) x = (fun p : ℤ × ℚ => p.1) y → x = y := by
    intro x hx y hy hxy
    obtain ⟨r, hr, rfl⟩ := List.mem_map.mp hx
    obtain ⟨s, hs, rfl⟩ := List.mem_map.mp hy
    simp only at hxy
    exact Prod.ext hxy (hinv r hr s hs hxy)
  have hmap : (unique_df (df.map (fun r => (r.event_id, r.shower_energy)))).map
        (fun p => p.1)
      = unique_df (df.map (fun r => r.event_id)) := by
    rw [map_unique_df _ _ hinj, List.map_map]
    rfl
  refine ⟨?_, hmap, ?_⟩
  · calc (shower_energies df).length
        = (unique_df (df.map (fun r => (r.event_id, r.shower_energy)))).length := by
          unfold shower_energies
          rw [List.length_map]
      _ = ((unique_df (df.map (fun r => (r.event_id, r.shower_energy)))).map
          (fun p => p.1)).length := (List.length_map _ _).symm
      _ = (unique_df (df.map (fun r => r.event_id))).length := by rw [hmap]
      _ = (df.map (fun r => r.event_id)).dedup.length := length_unique_df _
      _ = num_events df := rfl
  · intro p hp
    obtain ⟨r, hr, rfl⟩ := List.mem_map.mp ((mem_unique_df _ _).mp hp)
    exact ⟨r, hr, rfl⟩

/-- Witness for C7 at the spec's example: event 1 with three hits of energy
100 and event 2 with one hit of energy 50 histogram exactly `[100, 50]`. -/
theorem shower_energy_dedup_witness :
    (∀ r ∈ sampleDf, ∀ s ∈ sampleDf,
      r.event_id = s.event_id → r.shower_energy = s.shower_energy)
    ∧ ((shower_energies sampleDf).length = num_events sampleDf
      ∧ (unique_df (sampleDf.map (fun r => (r.event_id, r.shower_energy)))).map
          (fun p => p.1)
        = unique_df (sampleDf.map (fun r => r.event_id))
      ∧ ∀ p ∈ unique_df (sampleDf.map (fun r => (r.event_id, r.shower_energy))),
          ∃ r, r ∈ sampleDf ∧ p = (r.event_id, r.shower_energy))
    ∧ shower_energies sampleDf = [100, 50] :=
  ⟨by decide, shower_energy_dedup sampleDf (by decide), by decide⟩

end TBFast
